import Mathlib

/-!
Verification of the Reactome RDF-to-graph resolution engine
(`src/compath_reloaded/reactome/rdf_sparql.py`).

The development shallowly embeds the module's data model and operations:

* the RDF graph is a `TripleStore` of (subject, object) pairs per predicate,
  and the module's SPARQL query strings are rendered as functions over it;
* Python dictionaries are insertion-ordered association lists
  (`dlookup` / `dinsert` / `dupdate` embed `d[k]`, `d[k] = v`, `d.update`);
* `_get_entity_metadata`'s unbounded recursion is given an explicit fuel
  argument; `none` means the recursion did not complete within the fuel;
* `query_result_to_dict` lives in `compath_reloaded.utils`, which is not part
  of this snapshot, so its behaviour is modelled from the spec (see
  `attr_fill`, `ccRaw`, `dedupKeys`).
-/

set_option autoImplicit false

namespace PathMe

/-- Embedding of the SPARQL builtin STRAFTER over character lists: drop
everything up to and including the first occurrence of the delimiter. -/
def dropUntilAfter : List Char → List Char → Option (List Char)
  | [], _ => none
  | c :: cs, d =>
    if (c :: cs).take d.length = d then some ((c :: cs).drop d.length)
    else dropUntilAfter cs d

/-- STRAFTER(s, delim): the substring after the first occurrence of `delim`,
or the empty string when `delim` does not occur. -/
def strAfter (s delim : String) : String :=
  match dropUntilAfter s.toList delim.toList with
  | some rest => String.mk rest
  | none => ""

/-- The biopax3 namespace prefix, stripped from type URIs by the queries. -/
def biopax3ns : String := "http://www.biopax.org/release/biopax-level3.owl#"

/-! Python dictionaries as insertion-ordered association lists. -/

/-- Embedding of Python dict read `d.get(k)` / `k in d`. -/
def dlookup {α : Type} : List (String × α) → String → Option α
  | [], _ => none
  | kv :: rest, k => if kv.1 = k then some kv.2 else dlookup rest k

/-- Embedding of Python dict write `d[k] = v`: replace the value in place if
the key is present, else append the pair (insertion order preserved). -/
def dinsert {α : Type} : List (String × α) → String → α → List (String × α)
  | [], k, v => [(k, v)]
  | kv :: rest, k, v => if kv.1 = k then (k, v) :: rest else kv :: dinsert rest k v

/-- Embedding of Python dict merge `d1.update(d2)`: write every entry of `d2`
into `d1` in order; an existing key's record is replaced wholesale. -/
def dupdate {α : Type} (m1 m2 : List (String × α)) : List (String × α) :=
  m2.foldl (fun acc kv => dinsert acc kv.1 kv.2) m1

/-- Keep the first entry for every key, in first-occurrence order.  Modelled
from the spec: `query_result_to_dict(result, id_dict=True)` (from the absent
`compath_reloaded.utils` module) groups the result rows into a dictionary
keyed by the id variable. -/
def dedupKeys {α : Type} (l : List (String × α)) : List (String × α) :=
  l.foldl (fun acc kv => if (acc.map (fun x => x.1)).contains kv.1 then acc else acc ++ [kv]) []

/-- Keep the first occurrence of every row: the SELECT DISTINCT modifier of
the module's SPARQL queries. -/
def distinctRows {α : Type} [DecidableEq α] (l : List α) : List α :=
  l.foldl (fun acc r => if r ∈ acc then acc else acc ++ [r]) []

/-- Map a fallible function over a list, in order; `none` when any element
fails. -/
def mapOption {α β : Type} (f : α → Option β) : List α → Option (List β)
  | [] => some []
  | a :: l =>
    match f a, mapOption f l with
    | some b, some bs => some (b :: bs)
    | _, _ => none

/-! The RDF graph, restricted to the predicates the module's queries use. -/

/-- The in-memory triple store, one (subject, object) list per biopax3
predicate appearing in the module's SPARQL strings. -/
structure TripleStore where
  rdfType : List (String × String)
  displayName : List (String × String)
  comment : List (String × String)
  name : List (String × String)
  entityReference : List (String × String)
  cellularLocation : List (String × String)
  component : List (String × String)
  pathwayComponent : List (String × String)
  left : List (String × String)
  right : List (String × String)
  controlled : List (String × String)
  controlType : List (String × String)
  deriving DecidableEq

/-- First object bound to a subject under a predicate (the value an optional
clause binds, modelled as first-match). -/
def firstVal (l : List (String × String)) (k : String) : Option String :=
  ((l.filter (fun t => t.1 = k)).head?).map (fun t => t.2)

/-- All objects bound to a subject under a predicate. -/
def valuesOf (l : List (String × String)) (k : String) : List String :=
  (l.filter (fun t => t.1 = k)).map (fun t => t.2)

/-! Entity metadata: the dictionary produced for GET_ENTITY_METADATA. -/

/-- A metadata dictionary for one entity, one constructor field per variable
of the GET_ENTITY_METADATA query; `none` is an absent key.  The
`complex_components` key holds either the raw query value (a lone URI or a
multi-valued collection) or, after `_get_entity_metadata` processed a
Complex, the recursively resolved sub-trees. -/
inductive Metadata : Type where
  | mk (identifier uri_reactome_id uri_id name cell_locat display_name comment entity_type :
        Option String)
      (complex_components : Option ((String ⊕ List String) ⊕ List Metadata)) : Metadata

def Metadata.identifier : Metadata → Option String
  | .mk i _ _ _ _ _ _ _ _ => i

def Metadata.uri_reactome_id : Metadata → Option String
  | .mk _ u _ _ _ _ _ _ _ => u

def Metadata.uri_id : Metadata → Option String
  | .mk _ _ u _ _ _ _ _ _ => u

def Metadata.nameVal : Metadata → Option String
  | .mk _ _ _ n _ _ _ _ _ => n

def Metadata.cell_locat : Metadata → Option String
  | .mk _ _ _ _ c _ _ _ _ => c

def Metadata.display_name : Metadata → Option String
  | .mk _ _ _ _ _ d _ _ _ => d

def Metadata.commentVal : Metadata → Option String
  | .mk _ _ _ _ _ _ c _ _ => c

def Metadata.entity_type : Metadata → Option String
  | .mk _ _ _ _ _ _ _ e _ => e

def Metadata.complex_components : Metadata → Option ((String ⊕ List String) ⊕ List Metadata)
  | .mk _ _ _ _ _ _ _ _ cc => cc

/-- Overwrite the `complex_components` key (the in-place replacement at
lines 154/158/163 of the source). -/
def Metadata.setCC : Metadata → Option ((String ⊕ List String) ⊕ List Metadata) → Metadata
  | .mk i u ui n cl dn cm et _, cc => .mk i u ui n cl dn cm et cc

/-- Substitute a missing value by the literal "unknown". -/
def fillOpt : Option String → Option String
  | none => some "unknown"
  | some s => some s

/-- Fill one named attribute of the metadata dictionary with "unknown" when
it is absent.  Modelled from the spec: the `attr_empty` handling of
`query_result_to_dict` (in the absent `compath_reloaded.utils` module)
defaults the listed keys to the literal "unknown", never leaving them
absent. -/
def fillAttr (m : Metadata) (attr : String) : Metadata :=
  match m with
  | .mk i u ui n cl dn cm et cc =>
    if attr = "identifier" then .mk (fillOpt i) u ui n cl dn cm et cc
    else if attr = "uri_reactome_id" then .mk i (fillOpt u) ui n cl dn cm et cc
    else if attr = "display_name" then .mk i u ui n cl (fillOpt dn) cm et cc
    else if attr = "comment" then .mk i u ui n cl dn (fillOpt cm) et cc
    else if attr = "entity_type" then .mk i u ui n cl dn cm (fillOpt et) cc
    else m

/-- Apply the `attr_empty` defaults of `query_result_to_dict` (modelled from
the spec, see `fillAttr`). -/
def attr_fill (m : Metadata) (attrs : List String) : Metadata :=
  attrs.foldl fillAttr m

/-- The raw `complex_components` value: absent, a lone URI, or a multi-valued
collection.  Modelled from the spec: `query_result_to_dict` merges repeated
bindings of one variable into a multi-valued field (kept here in row order,
the spec's Many(list) normal form). -/
def ccRaw : List String → Option ((String ⊕ List String) ⊕ List Metadata)
  | [] => none
  | [x] => some (Sum.inl (Sum.inl x))
  | x :: y :: l => some (Sum.inl (Sum.inr (x :: y :: l)))

/-- The merged result of the GET_ENTITY_METADATA query for one entity URI.
The query requires an rdf:type and a biopax3:comment triple; without both it
returns no rows and every key is absent.  `identifier` is
STRAFTER(STR(?entity), '#'), `entity_type` strips the biopax3 namespace. -/
def rawEntityResult (g : TripleStore) (uri : String) : Metadata :=
  match firstVal g.rdfType uri, firstVal g.comment uri with
  | some ty, some cm =>
    Metadata.mk (some (strAfter uri "#")) (some uri) (firstVal g.entityReference uri)
      (firstVal g.name uri) (firstVal g.cellularLocation uri) (firstVal g.displayName uri)
      (some cm) (some (strAfter ty biopax3ns)) (ccRaw (valuesOf g.component uri))
  | _, _ => Metadata.mk none none none none none none none none none

/-- Embedding of `_get_pathway_metadata`: the entity-metadata query result
with the four-key `attr_empty` default set. -/
def _get_pathway_metadata (g : TripleStore) (uri : String) : Metadata :=
  attr_fill (rawEntityResult g uri) ["display_name", "identifier", "uri_reactome_id", "comment"]

/-- The dictionary built at lines 141-147 of the source: the entity-metadata
query result with `attr_empty = ['entity_type']`. -/
def entity_metadata_dict (g : TripleStore) (uri : String) : Metadata :=
  attr_fill (rawEntityResult g uri) ["entity_type"]

/-- Embedding of `_get_entity_metadata`: the entity-metadata query result
with `attr_empty = ['entity_type']`; when the entity is a Complex the
`complex_components` key is replaced by the recursively resolved sub-trees
(a lone URI becomes a one-element list, an absent value the empty list).
The fuel argument bounds the recursion depth the source leaves unbounded;
`none` means the resolution did not complete within the given depth. -/
def _get_entity_metadata (g : TripleStore) : Nat → String → Option Metadata
  | 0, _ => none
  | n + 1, uri =>
    let m := entity_metadata_dict g uri
    if m.entity_type = some "Complex" then
      match m.complex_components with
      | some (Sum.inl (Sum.inl s)) =>
        (_get_entity_metadata g n s).map (fun c => m.setCC (some (Sum.inr [c])))
      | some (Sum.inl (Sum.inr l)) =>
        (mapOption (fun s => _get_entity_metadata g n s) l).map
          (fun cs => m.setCC (some (Sum.inr cs)))
      | _ => some (m.setCC (some (Sum.inr [])))
    else some m

/-- A resolution that completes for some recursion depth. -/
def resolvesEntity (g : TripleStore) (uri : String) : Prop :=
  ∃ n, (_get_entity_metadata g n uri).isSome

/-! The reaction participant aggregator (`_get_reaction_participants`). -/

/-- One result row of GET_INTERACTION_PARTICIPANTS_AND_TYPE: the interaction
identifier, the reactant and product URIs, and the optional control type
(`none` when the ?interaction_type variable is unbound). -/
structure Row where
  identifier : String
  reactant : String
  product : String
  interaction_type : Option String
  deriving DecidableEq

/-- A pathway-component record as produced by GET_ALL_PATHWAY_COMPONENTS via
`query_result_to_dict(…, id_dict=True)`: component type plus optional name
and comment.  `interaction_type` is absent in the raw record and only ever
written by the aggregator. -/
structure Component where
  component_type : String
  nameVal : Option String
  commentVal : Option String
  interaction_type : Option String
  deriving DecidableEq

/-- The participants value of an interaction record: the initial
(reactant-id, product-id) pair, or the promoted
\x7breactants, products\x7d set form. -/
inductive Participants : Type where
  | pair (reactant product : String) : Participants
  | sets (reactants products : Finset String) : Participants
  deriving DecidableEq

/-- The control type of the optional clauses of
GET_INTERACTION_PARTICIPANTS_AND_TYPE: the controlType of a controller of
the component, when both exist (modelled as first-match). -/
def controlTypeFor (g : TripleStore) (component : String) : Option String :=
  ((g.controlled.filter (fun t => t.2 = component)).head?).bind
    (fun c => firstVal g.controlType c.1)

/-- The result rows of GET_INTERACTION_PARTICIPANTS_AND_TYPE with ?component
bound to `uri`: one row per (biopax3:left, biopax3:right) object pair of the
component, the ?identifier column computed as STRAFTER(STR(?component), '#'),
deduplicated by SELECT DISTINCT. -/
def participantRows (g : TripleStore) (uri : String) : List Row :=
  distinctRows
    ((valuesOf g.left uri).flatMap (fun r =>
      (valuesOf g.right uri).map (fun p =>
        ⟨strAfter uri "#", r, p, controlTypeFor g uri⟩)))

/-- The loop state of `_get_reaction_participants`: the nodes dictionary, the
interactions dictionary (an entry's `none` participants is the transient
`\x7b'metadata': component\x7d` record before its participants key is written),
and the component record.  In the source every interaction's `'metadata'`
value is the caller's `component` dict itself, so the per-row write of its
`'interaction_type'` key is kept in the single shared `comp` field. -/
structure AggState where
  nodes : List (String × Metadata)
  interactions : List (String × Option Participants)
  comp : Component

/-- The interaction type the loop body computes for one row: the
?interaction_type binding when present, else the literal "unknown". -/
def itOf (row : Row) : String :=
  match row.interaction_type with
  | none => "unknown"
  | some t => t

/-- The updates of the interactions dictionary for one row (source lines
193-195 and 205-217): ensure the identifier holds a `\x7b'metadata': …\x7d`
record, then write its participants key — first row a pair, second row
promotes the pair to the two-set form, later rows add into the sets.  The
final `none` branch is the unreachable KeyError arm: the identifier was put
into the dictionary just above. -/
def ensureKey (ints : List (String × Option Participants)) (id : String) :
    List (String × Option Participants) :=
  if (dlookup ints id).isNone then ints ++ [(id, none)] else ints

/-- The participants updates of the loop body, see `ensureKey` above. -/
def aggInts (ints : List (String × Option Participants)) (id rid pid : String) :
    List (String × Option Participants) :=
  let ints0 := ensureKey ints id
  match dlookup ints0 id with
  | some none => dinsert ints0 id (some (Participants.pair rid pid))
  | some (some (Participants.pair r1 p1)) =>
    dinsert ints0 id (some (Participants.sets {r1, rid} {p1, pid}))
  | some (some (Participants.sets rs ps)) =>
    dinsert ints0 id (some (Participants.sets (insert rid rs) (insert pid ps)))
  | none => ints0

/-- One iteration of the `for interaction in spaqrl_reaction_participants`
loop of `_get_reaction_participants`.  `none` embeds a crash of the
iteration: entity resolution that does not complete within the fuel, or the
KeyError of `reactant_metadata['identifier']` when the resolved dictionary
has no identifier key.  The write of the row's interaction type into the
shared metadata dict (source line 219) is the update of `comp`. -/
def aggStep (g : TripleStore) (fuel : Nat) (st : AggState) (row : Row) : Option AggState :=
  match _get_entity_metadata g fuel row.reactant, _get_entity_metadata g fuel row.product with
  | some rmeta, some pmeta =>
    match rmeta.identifier, pmeta.identifier with
    | some rid, some pid =>
      some { nodes := dinsert (dinsert st.nodes rid rmeta) pid pmeta,
             interactions := aggInts st.interactions row.identifier rid pid,
             comp := { st.comp with interaction_type := some (itOf row) } }
    | _, _ => none
  | _, _ => none

/-- The participant loop folded over the result rows. -/
def aggRows (g : TripleStore) (fuel : Nat) : AggState → List Row → Option AggState
  | st, [] => some st
  | st, r :: rs =>
    match aggStep g fuel st r with
    | none => none
    | some st' => aggRows g fuel st' rs

/-- A returned interaction record: its metadata dictionary and its
participants value. -/
structure Interaction where
  metadata : Component
  participants : Option Participants

/-- Embedding of `_get_reaction_participants`: run the participant loop from
empty dictionaries and return (nodes, interactions, final component).  In the
source every interaction's metadata aliases the caller's component dict and
is mutated in place; here each returned interaction carries the final
component record, and that final record is also returned as the third part
(the state the caller's record is left in). -/
def _get_reaction_participants (g : TripleStore) (fuel : Nat) (component_uri : String)
    (component : Component) :
    Option (List (String × Metadata) × List (String × Interaction) × Component) :=
  match aggRows g fuel ⟨[], [], component⟩ (participantRows g component_uri) with
  | none => none
  | some st =>
    some (st.nodes, st.interactions.map (fun kv => (kv.1, ⟨st.comp, kv.2⟩)), st.comp)

/-! The pathway component collector (`_get_pathway_components`). -/

/-- The result rows of GET_ALL_PATHWAY_COMPONENTS with ?pathway bound: one
row per (pathwayComponent object, rdf:type object) pair, the component type
stripped of the biopax3 namespace, optional name and comment as first-match. -/
def componentRows (g : TripleStore) (pathway : String) : List (String × Component) :=
  (valuesOf g.pathwayComponent pathway).flatMap (fun c =>
    (valuesOf g.rdfType c).map (fun ty =>
      (c, ⟨strAfter ty biopax3ns, firstVal g.displayName c, firstVal g.comment c, none⟩)))

/-- The component dictionary the collector iterates over:
`query_result_to_dict(spaqrl_pathway_components, id_dict=True)`, modelled
from the spec as grouping the rows by component URI (first occurrence). -/
def pathway_components (g : TripleStore) (pathway : String) : List (String × Component) :=
  dedupKeys (componentRows g pathway)

/-- The body of the collector's `for component_uri, component in …` loop:
a BiochemicalReaction component is delegated to the aggregator and its two
dictionaries merged by `dict.update`; a Pathway component's metadata is
inserted under its `uri_reactome_id`; other component types are skipped. -/
def collectStep (g : TripleStore) (fuel : Nat)
    (st : List (String × Metadata) × List (String × Interaction))
    (entry : String × Component) :
    Option (List (String × Metadata) × List (String × Interaction)) :=
  if entry.2.component_type = "BiochemicalReaction" then
    match _get_reaction_participants g fuel entry.1 entry.2 with
    | none => none
    | some (ns, ints, _) => some (dupdate st.1 ns, dupdate st.2 ints)
  else if entry.2.component_type = "Pathway" then
    match (_get_pathway_metadata g entry.1).uri_reactome_id with
    | none => none
    | some k => some (dinsert st.1 k (_get_pathway_metadata g entry.1), st.2)
  else some st

/-- The collector loop folded over the component dictionary. -/
def collectRows (g : TripleStore) (fuel : Nat) :
    List (String × Metadata) × List (String × Interaction) → List (String × Component) →
    Option (List (String × Metadata) × List (String × Interaction))
  | st, [] => some st
  | st, c :: cs =>
    match collectStep g fuel st c with
    | none => none
    | some st' => collectRows g fuel st' cs

/-- Embedding of `_get_pathway_components`: enumerate the pathway's direct
components, fold the collector loop from empty dictionaries, and return the
node dictionary together with `list(interactions.values())`. -/
def _get_pathway_components (g : TripleStore) (fuel : Nat) (pathway_uri : String) :
    Option (List (String × Metadata) × List Interaction) :=
  match collectRows g fuel ([], []) (pathway_components g pathway_uri) with
  | none => none
  | some (nodes, ints) => some (nodes, ints.map (fun kv => kv.2))

/-! Lemmas about the dictionary embedding. -/

theorem dlookup_dinsert_self {α : Type} (m : List (String × α)) (k : String) (v : α) :
    dlookup (dinsert m k v) k = some v := by
  induction m with
  | nil => simp [dinsert, dlookup]
  | cons kv rest ih =>
    by_cases h : kv.1 = k
    · simp [dinsert, dlookup, h]
    · simp [dinsert, dlookup, h, ih]

theorem dlookup_dinsert_ne {α : Type} (m : List (String × α)) (k k' : String) (v : α)
    (h : k' ≠ k) : dlookup (dinsert m k v) k' = dlookup m k' := by
  have hne : ¬(k = k') := fun hh => h hh.symm
  induction m with
  | nil => simp [dinsert, dlookup, hne]
  | cons kv rest ih =>
    by_cases hk : kv.1 = k
    · have h2 : ¬(kv.1 = k') := by rw [hk]; exact hne
      simp [dinsert, dlookup, hk, hne, h2]
    · simp [dinsert, dlookup, hk, ih]

theorem dlookup_append_of_none {α : Type} (m l : List (String × α)) (k : String)
    (h : dlookup m k = none) : dlookup (m ++ l) k = dlookup l k := by
  induction m with
  | nil => rfl
  | cons kv rest ih =>
    by_cases hk : kv.1 = k
    · simp [dlookup, hk] at h
    · simp only [dlookup, hk, if_false, List.cons_append] at h ⊢
      exact ih h

theorem dlookup_append_of_some {α : Type} (m l : List (String × α)) (k : String) (v : α)
    (h : dlookup m k = some v) : dlookup (m ++ l) k = some v := by
  induction m with
  | nil => simp [dlookup] at h
  | cons kv rest ih =>
    by_cases hk : kv.1 = k
    · simp only [dlookup, hk, if_true] at h
      simp [dlookup, hk, h]
    · simp only [dlookup, hk, if_false] at h
      simp only [List.cons_append, dlookup, hk, if_false]
      exact ih h

theorem mem_dinsert {α : Type} (m : List (String × α)) (k : String) (v : α)
    (kv : String × α) (h : kv ∈ dinsert m k v) : kv.1 = k ∨ kv ∈ m := by
  induction m with
  | nil =>
    simp [dinsert] at h
    subst h
    exact Or.inl rfl
  | cons kv' rest ih =>
    by_cases hk : kv'.1 = k
    · simp only [dinsert, hk, if_true, List.mem_cons] at h
      rcases h with h | h
      · subst h
        exact Or.inl rfl
      · exact Or.inr (List.mem_cons_of_mem _ h)
    · simp only [dinsert, hk, if_false, List.mem_cons] at h
      rcases h with h | h
      · exact Or.inr (h ▸ List.mem_cons_self _ _)
      · rcases ih h with h' | h'
        · exact Or.inl h'
        · exact Or.inr (List.mem_cons_of_mem _ h')

theorem length_dinsert_of_isSome {α : Type} (m : List (String × α)) (k : String) (v : α)
    (h : (dlookup m k).isSome) : (dinsert m k v).length = m.length := by
  induction m with
  | nil => simp [dlookup] at h
  | cons kv rest ih =>
    by_cases hk : kv.1 = k
    · simp [dinsert, hk]
    · simp only [dlookup, hk, if_false] at h
      simp [dinsert, hk, ih h]

theorem dlookup_dupdate_of_not_mem {α : Type} (m2 : List (String × α)) :
    ∀ m1 (k : String), (∀ kv ∈ m2, kv.1 ≠ k) → dlookup (dupdate m1 m2) k = dlookup m1 k := by
  induction m2 with
  | nil => intro m1 k _; rfl
  | cons kv rest ih =>
    intro m1 k h
    have h1 : kv.1 ≠ k := h kv (List.mem_cons_self _ _)
    have step : dupdate m1 (kv :: rest) = dupdate (dinsert m1 kv.1 kv.2) rest := rfl
    rw [step, ih (dinsert m1 kv.1 kv.2) k (fun x hx => h x (List.mem_cons_of_mem _ hx)),
      dlookup_dinsert_ne _ _ _ _ (fun hh => h1 hh.symm)]

theorem dlookup_dupdate_of_nodup {α : Type} (m2 : List (String × α)) :
    ∀ m1 (k : String) (v : α), (m2.map (fun kv => kv.1)).Nodup → dlookup m2 k = some v →
      dlookup (dupdate m1 m2) k = some v := by
  induction m2 with
  | nil => intro m1 k v _ h; simp [dlookup] at h
  | cons kv rest ih =>
    intro m1 k v hnd h
    have step : dupdate m1 (kv :: rest) = dupdate (dinsert m1 kv.1 kv.2) rest := rfl
    simp only [List.map_cons, List.nodup_cons] at hnd
    by_cases hk : kv.1 = k
    · simp only [dlookup, hk, if_true, Option.some.injEq] at h
      subst h
      have hrest : ∀ x ∈ rest, x.1 ≠ k := by
        intro x hx hxk
        exact hnd.1 (by rw [hk, ← hxk]; exact List.mem_map_of_mem _ hx)
      rw [step, dlookup_dupdate_of_not_mem rest _ k hrest, ← hk, dlookup_dinsert_self]
    · simp only [dlookup, hk, if_false] at h
      rw [step]
      exact ih _ k v hnd.2 h

theorem foldl_distinct_mem {α : Type} [DecidableEq α] :
    ∀ (l acc : List α) (a : α),
      a ∈ l.foldl (fun acc r => if r ∈ acc then acc else acc ++ [r]) acc → a ∈ acc ∨ a ∈ l := by
  intro l
  induction l with
  | nil => intro acc a h; exact Or.inl h
  | cons x xs ih =>
    intro acc a h
    simp only [List.foldl_cons] at h
    rcases ih (if x ∈ acc then acc else acc ++ [x]) a h with h' | h'
    · by_cases hx : x ∈ acc
      · rw [if_pos hx] at h'
        exact Or.inl h'
      · rw [if_neg hx] at h'
        rcases List.mem_append.mp h' with h3 | h3
        · exact Or.inl h3
        · simp only [List.mem_singleton] at h3
          exact Or.inr (h3 ▸ List.mem_cons_self _ _)
    · exact Or.inr (List.mem_cons_of_mem _ h')

theorem mem_distinctRows {α : Type} [DecidableEq α] (l : List α) (a : α)
    (h : a ∈ distinctRows l) : a ∈ l := by
  rcases foldl_distinct_mem l [] a h with h' | h'
  · simp at h'
  · exact h'

theorem mapOption_length_get {α β : Type} (f : α → Option β) :
    ∀ (l : List α) (bs : List β), mapOption f l = some bs →
      bs.length = l.length ∧
      ∀ i (hi : i < l.length) (hj : i < bs.length), f (l.get ⟨i, hi⟩) = some (bs.get ⟨i, hj⟩) := by
  intro l
  induction l with
  | nil =>
    intro bs h
    simp only [mapOption, Option.some.injEq] at h
    subst h
    exact ⟨rfl, fun i hi => by simp at hi⟩
  | cons a rest ih =>
    intro bs h
    simp only [mapOption] at h
    cases hfa : f a with
    | none => rw [hfa] at h; simp at h
    | some b =>
      rw [hfa] at h
      cases hrest : mapOption f rest with
      | none => rw [hrest] at h; simp at h
      | some bs' =>
        rw [hrest] at h
        simp only [Option.some.injEq] at h
        subst h
        obtain ⟨hl, hg⟩ := ih bs' hrest
        refine ⟨by simp [hl], ?_⟩
        intro i hi hj
        cases i with
        | zero => simpa using hfa
        | succ i' =>
          simp only [List.get_cons_succ]
          exact hg i' (by simpa using hi) (by simpa using hj)

/-! The participants state machine implemented by the loop body. -/

/-- The pure transition the loop body applies to the participants value at
one interaction identifier: absent becomes a pair, a pair is promoted to the
two-set form, a set form absorbs the new pair. -/
def stepP : Option Participants → String → String → Participants
  | none, a, b => Participants.pair a b
  | some (Participants.pair r1 p1), a, b => Participants.sets {r1, a} {p1, b}
  | some (Participants.sets rs ps), a, b => Participants.sets (insert a rs) (insert b ps)

theorem dlookup_ensureKey_self (ints : List (String × Option Participants)) (id : String) :
    dlookup (ensureKey ints id) id = some ((dlookup ints id).getD none) := by
  unfold ensureKey
  cases hl : dlookup ints id with
  | none =>
    simp only [hl, Option.isNone_none, if_true, Option.getD_none]
    rw [dlookup_append_of_none _ _ _ hl]
    simp [dlookup]
  | some v => simp [hl]

theorem dlookup_ensureKey_ne (ints : List (String × Option Participants)) (id k : String)
    (h : k ≠ id) : dlookup (ensureKey ints id) k = dlookup ints k := by
  unfold ensureKey
  split
  · cases hl : dlookup ints k with
    | some v => exact dlookup_append_of_some _ _ _ _ hl
    | none =>
      rw [dlookup_append_of_none _ _ _ hl]
      have hik : ¬(id = k) := fun hh => h hh.symm
      simp [dlookup, hik, hl]
  · rfl

theorem dlookup_aggInts_self (ints : List (String × Option Participants)) (id rid pid : String)
    (h : dlookup ints id ≠ some none) :
    dlookup (aggInts ints id rid pid) id =
      some (some (stepP (Option.join (dlookup ints id)) rid pid)) := by
  have h0 := dlookup_ensureKey_self ints id
  simp only [aggInts]
  cases hl : dlookup ints id with
  | none =>
    rw [hl] at h0
    simp only [Option.getD_none] at h0
    rw [h0]
    simp [dlookup_dinsert_self, stepP, hl]
  | some v =>
    cases v with
    | none => exact absurd hl h
    | some parts =>
      rw [hl] at h0
      simp only [Option.getD_some] at h0
      rw [h0]
      cases parts with
      | pair r1 p1 => simp [dlookup_dinsert_self, stepP, hl, Option.join]
      | sets rs ps => simp [dlookup_dinsert_self, stepP, hl, Option.join]

theorem dlookup_aggInts_ne (ints : List (String × Option Participants)) (id rid pid k : String)
    (h : k ≠ id) : dlookup (aggInts ints id rid pid) k = dlookup ints k := by
  have hek := dlookup_ensureKey_ne ints id k h
  have hgen : ∀ v : Option Participants,
      dlookup (dinsert (ensureKey ints id) id v) k = dlookup ints k := by
    intro v
    rw [dlookup_dinsert_ne _ _ _ _ h]
    exact hek
  simp only [aggInts]
  cases hl : dlookup (ensureKey ints id) id with
  | none => exact hek
  | some v =>
    cases v with
    | none => exact hgen _
    | some parts =>
      cases parts with
      | pair r1 p1 => exact hgen _
      | sets rs ps => exact hgen _

theorem aggStep_eq_some (g : TripleStore) (fuel : Nat) (st : AggState) (row : Row)
    (st' : AggState) (h : aggStep g fuel st row = some st') :
    ∃ rmeta pmeta rid pid,
      _get_entity_metadata g fuel row.reactant = some rmeta ∧
      _get_entity_metadata g fuel row.product = some pmeta ∧
      rmeta.identifier = some rid ∧ pmeta.identifier = some pid ∧
      st' = ⟨dinsert (dinsert st.nodes rid rmeta) pid pmeta,
             aggInts st.interactions row.identifier rid pid,
             { st.comp with interaction_type := some (itOf row) }⟩ := by
  cases hr : _get_entity_metadata g fuel row.reactant with
  | none => simp [aggStep, hr] at h
  | some rmeta =>
    cases hp : _get_entity_metadata g fuel row.product with
    | none => simp [aggStep, hr, hp] at h
    | some pmeta =>
      cases hri : rmeta.identifier with
      | none => simp [aggStep, hr, hp, hri] at h
      | some rid =>
        cases hpi : pmeta.identifier with
        | none => simp [aggStep, hr, hp, hri, hpi] at h
        | some pid =>
          simp only [aggStep, hr, hp, hri, hpi, Option.some.injEq] at h
          exact ⟨rmeta, pmeta, rid, pid, rfl, rfl, hri, hpi, h.symm⟩

theorem aggRows_append (g : TripleStore) (fuel : Nat) :
    ∀ (l1 l2 : List Row) (st : AggState),
      aggRows g fuel st (l1 ++ l2) =
        (aggRows g fuel st l1).bind (fun st1 => aggRows g fuel st1 l2) := by
  intro l1
  induction l1 with
  | nil => intro l2 st; rfl
  | cons r rs ih =>
    intro l2 st
    cases h : aggStep g fuel st r with
    | none => simp [aggRows, h]
    | some st1 => simp [aggRows, h, ih l2 st1]

theorem aggInts_nil (id rid pid : String) :
    aggInts [] id rid pid = [(id, some (Participants.pair rid pid))] := by
  simp [aggInts, ensureKey, dlookup, dinsert]

theorem aggInts_keyed (id rid pid : String) (w : Option Participants) :
    aggInts [(id, w)] id rid pid = [(id, some (stepP w rid pid))] := by
  cases w with
  | none => simp [aggInts, ensureKey, dlookup, dinsert, stepP]
  | some parts => cases parts <;> simp [aggInts, ensureKey, dlookup, dinsert, stepP]

theorem aggRows_single_id (g : TripleStore) (fuel : Nat) (id : String) :
    ∀ (rows : List Row) (st st' : AggState),
      (∀ r ∈ rows, r.identifier = id) →
      aggRows g fuel st rows = some st' →
      (st.interactions = [] ∨ ∃ w, st.interactions = [(id, w)]) →
      st'.interactions = [] ∨ ∃ w, st'.interactions = [(id, w)] := by
  intro rows
  induction rows with
  | nil =>
    intro st st' _ hrun hst
    simp only [aggRows, Option.some.injEq] at hrun
    exact hrun ▸ hst
  | cons r rs ih =>
    intro st st' hid hrun hst
    simp only [aggRows] at hrun
    cases hstep : aggStep g fuel st r with
    | none => rw [hstep] at hrun; simp at hrun
    | some st1 =>
      rw [hstep] at hrun
      obtain ⟨rmeta, pmeta, rid, pid, _, _, _, _, hshape⟩ :=
        aggStep_eq_some g fuel st r st1 hstep
      have hrid : r.identifier = id := hid r (List.mem_cons_self _ _)
      have hint : st1.interactions = [] ∨ ∃ w, st1.interactions = [(id, w)] := by
        rcases hst with hempty | ⟨w, hw⟩
        · right
          refine ⟨some (Participants.pair rid pid), ?_⟩
          rw [hshape]
          simp only []
          rw [hempty, hrid, aggInts_nil]
        · right
          refine ⟨some (stepP w rid pid), ?_⟩
          rw [hshape]
          simp only []
          rw [hw, hrid, aggInts_keyed]
      exact ih st1 st' (fun x hx => hid x (List.mem_cons_of_mem _ hx)) hrun hint

theorem mem_participantRows_identifier (g : TripleStore) (uri : String) (r : Row)
    (h : r ∈ participantRows g uri) : r.identifier = strAfter uri "#" := by
  have h' := mem_distinctRows _ _ h
  simp only [participantRows] at h'
  rw [List.mem_flatMap] at h'
  obtain ⟨a, _, hr⟩ := h'
  rw [List.mem_map] at hr
  obtain ⟨b, _, hr'⟩ := hr
  rw [← hr']

/-- C10 groundwork: a successful aggregator call exposes the final loop
state. -/
theorem _get_reaction_participants_eq_some (g : TripleStore) (fuel : Nat)
    (component_uri : String) (component : Component)
    (out : List (String × Metadata) × List (String × Interaction) × Component)
    (h : _get_reaction_participants g fuel component_uri component = some out) :
    ∃ st, aggRows g fuel ⟨[], [], component⟩ (participantRows g component_uri) = some st ∧
      out = (st.nodes, st.interactions.map (fun kv => (kv.1, ⟨st.comp, kv.2⟩)), st.comp) := by
  unfold _get_reaction_participants at h
  cases hrun : aggRows g fuel ⟨[], [], component⟩ (participantRows g component_uri) with
  | none => rw [hrun] at h; simp at h
  | some st =>
    rw [hrun] at h
    simp only [Option.some.injEq] at h
    exact ⟨st, rfl, h.symm⟩

/-! Resolved participant identifiers of one row, and the pure run of the
participants state machine over the resolved pairs. -/

/-- The node key the loop computes for a row's reactant:
`reactant_metadata['identifier']`. -/
def rowRid (g : TripleStore) (fuel : Nat) (r : Row) : Option String :=
  (_get_entity_metadata g fuel r.reactant).bind Metadata.identifier

/-- The node key the loop computes for a row's product:
`product_metadata['identifier']`. -/
def rowPid (g : TripleStore) (fuel : Nat) (r : Row) : Option String :=
  (_get_entity_metadata g fuel r.product).bind Metadata.identifier

/-- Both resolved keys of a row, when both resolutions succeed. -/
def rowPair (g : TripleStore) (fuel : Nat) (r : Row) : Option (String × String) :=
  match rowRid g fuel r, rowPid g fuel r with
  | some a, some b => some (a, b)
  | _, _ => none

/-- Folding the participants transition over a list of resolved
(reactant-id, product-id) pairs. -/
def partsRun : Option Participants → List (String × String) → Option Participants
  | cur, [] => cur
  | cur, ab :: l => partsRun (some (stepP cur ab.1 ab.2)) l

theorem partsRun_sets (l : List (String × String)) :
    ∀ R P : Finset String, ∃ R' P',
      partsRun (some (Participants.sets R P)) l = some (Participants.sets R' P') ∧
      R ⊆ R' ∧ P ⊆ P' ∧ ∀ ab ∈ l, ab.1 ∈ R' ∧ ab.2 ∈ P' := by
  induction l with
  | nil =>
    intro R P
    exact ⟨R, P, rfl, Finset.Subset.refl R, Finset.Subset.refl P, by simp⟩
  | cons ab rest ih =>
    intro R P
    obtain ⟨R', P', hrun, hR, hP, hmem⟩ := ih (insert ab.1 R) (insert ab.2 P)
    refine ⟨R', P', hrun, ?_, ?_, ?_⟩
    · exact fun x hx => hR (Finset.mem_insert_of_mem hx)
    · exact fun x hx => hP (Finset.mem_insert_of_mem hx)
    · intro x hx
      rcases List.mem_cons.mp hx with hx | hx
      · subst hx
        exact ⟨hR (Finset.mem_insert_self _ _), hP (Finset.mem_insert_self _ _)⟩
      · exact hmem x hx

theorem mapOption_isSome {α β : Type} (f : α → Option β) :
    ∀ l : List α, (∀ x ∈ l, (f x).isSome) → ∃ bs, mapOption f l = some bs := by
  intro l
  induction l with
  | nil => intro _; exact ⟨[], rfl⟩
  | cons a rest ih =>
    intro h
    obtain ⟨b, hb⟩ := Option.isSome_iff_exists.mp (h a (List.mem_cons_self _ _))
    obtain ⟨bs, hbs⟩ := ih (fun x hx => h x (List.mem_cons_of_mem _ hx))
    exact ⟨b :: bs, by simp [mapOption, hb, hbs]⟩

theorem mapOption_mem {α β : Type} (f : α → Option β) :
    ∀ (l : List α) (bs : List β), mapOption f l = some bs →
      ∀ x ∈ l, ∃ b ∈ bs, f x = some b := by
  intro l
  induction l with
  | nil => intro bs _ x hx; simp at hx
  | cons a rest ih =>
    intro bs h x hx
    simp only [mapOption] at h
    cases hfa : f a with
    | none => rw [hfa] at h; simp at h
    | some b =>
      rw [hfa] at h
      cases hrest : mapOption f rest with
      | none => rw [hrest] at h; simp at h
      | some bs' =>
        rw [hrest] at h
        simp only [Option.some.injEq] at h
        subst h
        rcases List.mem_cons.mp hx with hx | hx
        · exact ⟨b, List.mem_cons_self _ _, hx ▸ hfa⟩
        · obtain ⟨b', hb', hfb'⟩ := ih bs' hrest x hx
          exact ⟨b', List.mem_cons_of_mem _ hb', hfb'⟩

/-- A successful run of the participant loop resolved every row. -/
theorem aggRows_resolves (g : TripleStore) (fuel : Nat) :
    ∀ (rows : List Row) (st st' : AggState), aggRows g fuel st rows = some st' →
      ∀ r ∈ rows, ∃ a b, rowRid g fuel r = some a ∧ rowPid g fuel r = some b := by
  intro rows
  induction rows with
  | nil => intro st st' _ r hr; simp at hr
  | cons r0 rs ih =>
    intro st st' hrun r hr
    simp only [aggRows] at hrun
    cases hstep : aggStep g fuel st r0 with
    | none => rw [hstep] at hrun; simp at hrun
    | some st1 =>
      rw [hstep] at hrun
      rcases List.mem_cons.mp hr with hr | hr
      · obtain ⟨rmeta, pmeta, rid, pid, hrm, hpm, hri, hpi, _⟩ :=
          aggStep_eq_some g fuel st r0 st1 hstep
        subst hr
        exact ⟨rid, pid, by simp [rowRid, hrm, hri], by simp [rowPid, hpm, hpi]⟩
      · exact ih st1 st' hrun r hr

/-- Invariant: no interaction entry is left in the transient
metadata-only state between loop iterations. -/
theorem aggStep_no_transient (g : TripleStore) (fuel : Nat) (st st' : AggState) (row : Row)
    (hstep : aggStep g fuel st row = some st')
    (hinv : ∀ k, dlookup st.interactions k ≠ some none) :
    ∀ k, dlookup st'.interactions k ≠ some none := by
  obtain ⟨rmeta, pmeta, rid, pid, _, _, _, _, hshape⟩ := aggStep_eq_some g fuel st row st' hstep
  intro k
  rw [hshape]
  simp only []
  by_cases hk : k = row.identifier
  · subst hk
    rw [dlookup_aggInts_self st.interactions row.identifier rid pid (hinv row.identifier)]
    simp
  · rw [dlookup_aggInts_ne st.interactions row.identifier rid pid k hk]
    exact hinv k

/-- The participants value accumulated at one interaction identifier is the
pure state-machine run over the resolved pairs of the rows carrying that
identifier. -/
theorem aggRows_parts_run (g : TripleStore) (fuel : Nat) (id : String) :
    ∀ (rows : List Row) (st st' : AggState) (ps : List (String × String)),
      aggRows g fuel st rows = some st' →
      mapOption (rowPair g fuel) (rows.filter (fun x => x.identifier == id)) = some ps →
      (∀ k, dlookup st.interactions k ≠ some none) →
      dlookup st'.interactions id =
        (partsRun (Option.join (dlookup st.interactions id)) ps).map some := by
  intro rows
  induction rows with
  | nil =>
    intro st st' ps hrun hps hinv
    simp only [aggRows, Option.some.injEq] at hrun
    subst hrun
    simp only [List.filter_nil, mapOption, Option.some.injEq] at hps
    subst hps
    cases hl : dlookup st.interactions id with
    | none => simp [partsRun]
    | some v =>
      cases v with
      | none => exact absurd hl (hinv id)
      | some parts => simp [partsRun, Option.join]
  | cons r rs ih =>
    intro st st' ps hrun hps hinv
    simp only [aggRows] at hrun
    cases hstep : aggStep g fuel st r with
    | none => rw [hstep] at hrun; simp at hrun
    | some st1 =>
      rw [hstep] at hrun
      obtain ⟨rmeta, pmeta, rid, pid, hrm, hpm, hri, hpi, hshape⟩ :=
        aggStep_eq_some g fuel st r st1 hstep
      have hinv1 := aggStep_no_transient g fuel st st1 r hstep hinv
      have hpair : rowPair g fuel r = some (rid, pid) := by
        simp [rowPair, rowRid, rowPid, hrm, hpm, hri, hpi]
      by_cases hid : r.identifier = id
      · rw [List.filter_cons_of_pos (by simp [hid])] at hps
        simp only [mapOption, hpair] at hps
        cases hrest : mapOption (rowPair g fuel) (rs.filter (fun x => x.identifier == id)) with
        | none => rw [hrest] at hps; simp at hps
        | some ps' =>
          rw [hrest] at hps
          simp only [Option.some.injEq] at hps
          subst hps
          have hst1 : dlookup st1.interactions id =
              some (some (stepP (Option.join (dlookup st.interactions id)) rid pid)) := by
            rw [hshape]
            simp only []
            rw [← hid]
            exact dlookup_aggInts_self st.interactions r.identifier rid pid
              (hid ▸ hinv r.identifier)
          have := ih st1 st' ps' hrun hrest hinv1
          rw [hst1] at this
          rw [this]
          simp [partsRun, Option.join]
      · rw [List.filter_cons_of_neg (by simp [hid])] at hps
        have hst1 : dlookup st1.interactions id = dlookup st.interactions id := by
          rw [hshape]
          simp only []
          exact dlookup_aggInts_ne st.interactions r.identifier rid pid id
            (fun hh => hid hh.symm)
        have := ih st1 st' ps hrun hps hinv1
        rw [hst1] at this
        exact this

/-! Concrete test stores used by the witnesses and counterexamples. -/

/-- A raw BiochemicalReaction component record. -/
def compBR : Component := ⟨"BiochemicalReaction", none, none, none⟩

/-- Four resolvable protein entities. -/
def storeEntities : TripleStore :=
  ⟨[("http://e#R1", "http://www.biopax.org/release/biopax-level3.owl#Protein"),
    ("http://e#P1", "http://www.biopax.org/release/biopax-level3.owl#Protein"),
    ("http://e#R2", "http://www.biopax.org/release/biopax-level3.owl#Protein"),
    ("http://e#P2", "http://www.biopax.org/release/biopax-level3.owl#Protein")],
   [],
   [("http://e#R1", "c"), ("http://e#P1", "c"), ("http://e#R2", "c"), ("http://e#P2", "c")],
   [], [], [], [], [], [], [], [], []⟩

/-- A participant row resolving to identifiers R1/P1. -/
def rowA : Row := ⟨"X", "http://e#R1", "http://e#P1", none⟩

/-- A participant row resolving to identifiers R2/P2. -/
def rowB : Row := ⟨"X", "http://e#R2", "http://e#P2", none⟩

/-- Two participant rows for the same interaction identifier. -/
def rowsTwo : List Row := [rowA, rowB]

/-- The loop state after running the participant loop on `rowsTwo`. -/
def stTwo : AggState :=
  (aggRows storeEntities 1 ⟨[], [], compBR⟩ rowsTwo).getD ⟨[], [], compBR⟩

/-- C1: in the participant loop of `_get_reaction_participants`, the
participants field of an interaction identifier is the (reactant-id,
product-id) pair when exactly one row carries that identifier, and with two
or more rows it is the promoted \x7breactants, products\x7d set form — never a
pair again — and the sets contain the resolved reactant and product
identifiers of every row for that identifier, in particular both members of
the original pair. -/
theorem C1_participants_promotion (g : TripleStore) (fuel : Nat) (comp : Component)
    (rows : List Row) (id : String) (st' : AggState)
    (hrun : aggRows g fuel ⟨[], [], comp⟩ rows = some st') :
    (∀ r a b, rows.filter (fun x => x.identifier == id) = [r] →
        rowRid g fuel r = some a → rowPid g fuel r = some b →
        dlookup st'.interactions id = some (some (Participants.pair a b))) ∧
    (2 ≤ (rows.filter (fun x => x.identifier == id)).length →
        ∃ R P, dlookup st'.interactions id = some (some (Participants.sets R P)) ∧
          ∀ r a b, r ∈ rows.filter (fun x => x.identifier == id) →
            rowRid g fuel r = some a → rowPid g fuel r = some b → a ∈ R ∧ b ∈ P) := by
  have hres := aggRows_resolves g fuel rows _ st' hrun
  obtain ⟨ps, hps⟩ : ∃ ps,
      mapOption (rowPair g fuel) (rows.filter (fun x => x.identifier == id)) = some ps := by
    apply mapOption_isSome
    intro x hx
    obtain ⟨a, b, ha, hb⟩ := hres x (List.mem_of_mem_filter hx)
    simp [rowPair, ha, hb]
  have hchar := aggRows_parts_run g fuel id rows _ st' ps hrun hps
    (by intro k; simp [dlookup])
  have hlen := (mapOption_length_get (rowPair g fuel) _ ps hps).1
  constructor
  · intro r a b hfilter ha hb
    have hp : rowPair g fuel r = some (a, b) := by simp [rowPair, ha, hb]
    rw [hfilter] at hps
    simp only [mapOption, hp] at hps
    simp only [Option.some.injEq] at hps
    subst hps
    simpa [partsRun, stepP, dlookup, Option.join] using hchar
  · intro h2
    rw [← hlen] at h2
    cases ps with
    | nil => simp at h2
    | cons ab1 ps1 =>
      cases ps1 with
      | nil => simp at h2
      | cons ab2 rest =>
        have hstart : partsRun (Option.join (dlookup (AggState.mk [] [] comp).interactions id))
            (ab1 :: ab2 :: rest) =
            partsRun (some (Participants.sets {ab1.1, ab2.1} {ab1.2, ab2.2})) rest := by
          simp [dlookup, partsRun, stepP, Option.join]
        obtain ⟨R', P', hsets, hRsub, hPsub, hmemrest⟩ :=
          partsRun_sets rest {ab1.1, ab2.1} {ab1.2, ab2.2}
        refine ⟨R', P', ?_, ?_⟩
        · rw [hchar, hstart, hsets]
          rfl
        · intro r a b hr ha hb
          have hp : rowPair g fuel r = some (a, b) := by simp [rowPair, ha, hb]
          obtain ⟨ab, hab, habp⟩ := mapOption_mem (rowPair g fuel) _ _ hps r hr
          rw [hp] at habp
          have hab' : ab = (a, b) := (Option.some.inj habp).symm
          subst hab'
          rcases List.mem_cons.mp hab with hh | hh
          · have ha1 : a = ab1.1 := by rw [← hh]
            have hb1 : b = ab1.2 := by rw [← hh]
            subst ha1
            subst hb1
            exact ⟨hRsub (Finset.mem_insert_self _ _), hPsub (Finset.mem_insert_self _ _)⟩
          · rcases List.mem_cons.mp hh with hh2 | hh2
            · have ha1 : a = ab2.1 := by rw [← hh2]
              have hb1 : b = ab2.2 := by rw [← hh2]
              subst ha1
              subst hb1
              refine ⟨hRsub ?_, hPsub ?_⟩
              · exact Finset.mem_insert_of_mem (Finset.mem_singleton_self _)
              · exact Finset.mem_insert_of_mem (Finset.mem_singleton_self _)
            · exact hmemrest (a, b) hh2

/-- C1 witness: the promotion hypotheses hold at a concrete two-row input. -/
theorem C1_participants_promotion_witness :
    2 ≤ (rowsTwo.filter (fun x => x.identifier == "X")).length ∧
    (dlookup stTwo.interactions "X").isSome := by
  have h := C1_participants_promotion storeEntities 1 compBR rowsTwo "X" stTwo (by rfl)
  have h2 : 2 ≤ (rowsTwo.filter (fun x => x.identifier == "X")).length := by decide
  obtain ⟨R, P, hRP, _⟩ := h.2 h2
  refine ⟨h2, ?_⟩
  rw [hRP]
  rfl

/-- A store with one biochemical reaction `http://rx#X` (one reactant R1, one
product P1, no controller) as the sole component of pathway `http://p#P`. -/
def storeOneReaction : TripleStore :=
  ⟨[("http://rx#X", "http://www.biopax.org/release/biopax-level3.owl#BiochemicalReaction"),
    ("http://e#R1", "http://www.biopax.org/release/biopax-level3.owl#Protein"),
    ("http://e#P1", "http://www.biopax.org/release/biopax-level3.owl#Protein")],
   [],
   [("http://e#R1", "c1"), ("http://e#P1", "c2")],
   [], [], [], [],
   [("http://p#P", "http://rx#X")],
   [("http://rx#X", "http://e#R1")],
   [("http://rx#X", "http://e#P1")],
   [], []⟩

/-- The aggregator output on the one-reaction store. -/
def outOneReaction : List (String × Metadata) × List (String × Interaction) × Component :=
  (_get_reaction_participants storeOneReaction 1 "http://rx#X" compBR).getD ⟨[], [], compBR⟩

/-- C10: the participant query binds ?component, so every result row's
?identifier column is STRAFTER of the one component URI, and a single call
to `_get_reaction_participants` therefore returns an interactions dictionary
with at most one entry, keyed by that fragment. -/
theorem C10_single_interaction (g : TripleStore) (fuel : Nat) (uri : String) (comp : Component)
    (out : List (String × Metadata) × List (String × Interaction) × Component)
    (h : _get_reaction_participants g fuel uri comp = some out) :
    (∀ r ∈ participantRows g uri, r.identifier = strAfter uri "#") ∧
    out.2.1.length ≤ 1 ∧ ∀ kv ∈ out.2.1, kv.1 = strAfter uri "#" := by
  obtain ⟨st, hrun, hout⟩ := _get_reaction_participants_eq_some g fuel uri comp out h
  have hids : ∀ r ∈ participantRows g uri, r.identifier = strAfter uri "#" :=
    fun r hr => mem_participantRows_identifier g uri r hr
  have hsingle := aggRows_single_id g fuel (strAfter uri "#") (participantRows g uri)
    ⟨[], [], comp⟩ st hids hrun (Or.inl rfl)
  subst hout
  refine ⟨hids, ?_, ?_⟩
  · rcases hsingle with hempty | ⟨w, hw⟩
    · simp [hempty]
    · simp [hw]
  · intro kv hkv
    rcases hsingle with hempty | ⟨w, hw⟩
    · rw [hempty] at hkv
      simp at hkv
    · rw [hw] at hkv
      simp only [List.map_cons, List.map_nil, List.mem_singleton] at hkv
      rw [hkv]

/-- C10 witness at the concrete one-reaction store. -/
theorem C10_single_interaction_witness : outOneReaction.2.1.length ≤ 1 :=
  (C10_single_interaction storeOneReaction 1 "http://rx#X" compBR outOneReaction (by rfl)).2.1

/-- The final component record of a loop run: every field is preserved
except `interaction_type`, which tracks the last processed row. -/
theorem aggRows_comp_fields (g : TripleStore) (fuel : Nat) :
    ∀ (rows : List Row) (st st' : AggState), aggRows g fuel st rows = some st' →
      st'.comp.component_type = st.comp.component_type ∧
      st'.comp.nameVal = st.comp.nameVal ∧
      st'.comp.commentVal = st.comp.commentVal ∧
      (rows = [] → st'.comp = st.comp) ∧
      (∀ r, rows.getLast? = some r → st'.comp.interaction_type = some (itOf r)) := by
  intro rows
  induction rows with
  | nil =>
    intro st st' hrun
    simp only [aggRows, Option.some.injEq] at hrun
    subst hrun
    exact ⟨rfl, rfl, rfl, fun _ => rfl, fun r hr => by simp at hr⟩
  | cons r0 rs ih =>
    intro st st' hrun
    simp only [aggRows] at hrun
    cases hstep : aggStep g fuel st r0 with
    | none => rw [hstep] at hrun; simp at hrun
    | some st1 =>
      rw [hstep] at hrun
      obtain ⟨rmeta, pmeta, rid, pid, _, _, _, _, hshape⟩ :=
        aggStep_eq_some g fuel st r0 st1 hstep
      have hcomp1 : st1.comp = { st.comp with interaction_type := some (itOf r0) } := by
        rw [hshape]
      obtain ⟨h1, h2, h3, h4, h5⟩ := ih st1 st' hrun
      refine ⟨by rw [h1, hcomp1], by rw [h2, hcomp1], by rw [h3, hcomp1], ?_, ?_⟩
      · intro hh
        simp at hh
      · intro r hr
        cases rs with
        | nil =>
          simp only [List.getLast?_singleton, Option.some.injEq] at hr
          subst hr
          have : st' = st1 := by
            have hh : st1 = st' := by simpa [aggRows] using hrun
            exact hh.symm
          rw [this, hcomp1]
        | cons r2 rs' =>
          rw [List.getLast?_cons_cons] at hr
          exact h5 r hr

/-- C4 (amended): a call to `_get_reaction_participants` leaves every field
of the caller's component record unchanged except `interaction_type` — the
interaction metadata aliases the caller's record, so the per-row
`metadata['interaction_type']` write lands in it: with at least one
participant row the returned record carries the last row's interaction type,
and every returned interaction's metadata is exactly that final record. -/
theorem C4_component_mutation (g : TripleStore) (fuel : Nat) (uri : String) (comp : Component)
    (out : List (String × Metadata) × List (String × Interaction) × Component)
    (h : _get_reaction_participants g fuel uri comp = some out) :
    out.2.2.component_type = comp.component_type ∧
    out.2.2.nameVal = comp.nameVal ∧
    out.2.2.commentVal = comp.commentVal ∧
    (participantRows g uri = [] → out.2.2 = comp) ∧
    (∀ r, (participantRows g uri).getLast? = some r →
      out.2.2.interaction_type = some (itOf r)) ∧
    (∀ kv ∈ out.2.1, kv.2.metadata = out.2.2) := by
  obtain ⟨st, hrun, hout⟩ := _get_reaction_participants_eq_some g fuel uri comp out h
  obtain ⟨h1, h2, h3, h4, h5⟩ := aggRows_comp_fields g fuel (participantRows g uri)
    ⟨[], [], comp⟩ st hrun
  subst hout
  refine ⟨h1, h2, h3, fun he => h4 he, h5, ?_⟩
  intro kv hkv
  simp only [List.mem_map] at hkv
  obtain ⟨kv0, _, hkv0⟩ := hkv
  rw [← hkv0]

/-- C4 counterexample: the component record handed to the aggregator is not
returned unchanged — an `interaction_type` key has been written into it. -/
theorem C4_counterexample :
    (_get_reaction_participants storeOneReaction 1 "http://rx#X" compBR).map
        (fun t => t.2.2) =
      some ⟨"BiochemicalReaction", none, none, some "unknown"⟩ ∧
    ((_get_reaction_participants storeOneReaction 1 "http://rx#X" compBR).map
        (fun t => t.2.2)) ≠ some compBR := by
  constructor
  · rfl
  · intro hcontra
    have : (⟨"BiochemicalReaction", none, none, some "unknown"⟩ : Component) = compBR := by
      have h1 : (_get_reaction_participants storeOneReaction 1 "http://rx#X" compBR).map
          (fun t => t.2.2) = some ⟨"BiochemicalReaction", none, none, some "unknown"⟩ := rfl
      rw [h1] at hcontra
      exact Option.some.inj hcontra
    simp [compBR] at this

/-- C4 witness: the field-preservation theorem applied at the one-reaction
store. -/
theorem C4_component_mutation_witness :
    outOneReaction.2.2.component_type = compBR.component_type ∧
    outOneReaction.2.2.interaction_type = some "unknown" := by
  have h := C4_component_mutation storeOneReaction 1 "http://rx#X" compBR outOneReaction (by rfl)
  refine ⟨h.1, ?_⟩
  have hlast : (participantRows storeOneReaction "http://rx#X").getLast? =
      some ⟨"X", "http://e#R1", "http://e#P1", none⟩ := by rfl
  have := h.2.2.2.2.1 ⟨"X", "http://e#R1", "http://e#P1", none⟩ hlast
  simpa [itOf] using this

/-- The resolved metadata of entity R2 in `storeEntities`. -/
def mR2 : Metadata :=
  (_get_entity_metadata storeEntities 1 "http://e#R2").getD
    (Metadata.mk none none none none none none none none none)

/-- The resolved metadata of entity P2 in `storeEntities`. -/
def mP2 : Metadata :=
  (_get_entity_metadata storeEntities 1 "http://e#P2").getD
    (Metadata.mk none none none none none none none none none)

/-- C9: node merging is last-write-wins keyed by identifier — writing a
second metadata value under the same key replaces the first (`dinsert`, the
loop's node writes), `dict.update` keeps the later map's record on key
collision (`dupdate`, the collector's merge), and after the participant loop
the nodes dictionary holds the metadata resolved for the final row. -/
theorem C9_node_last_write_wins (g : TripleStore) (fuel : Nat) (st : AggState)
    (rows : List Row) (r : Row) (st' : AggState) (mr mp : Metadata) (rid pid : String)
    (m m2 : List (String × Metadata)) (k : String) (a b v : Metadata)
    (hrun : aggRows g fuel st (rows ++ [r]) = some st')
    (hmr : _get_entity_metadata g fuel r.reactant = some mr)
    (hrid : mr.identifier = some rid)
    (hmp : _get_entity_metadata g fuel r.product = some mp)
    (hpid : mp.identifier = some pid)
    (hne : rid ≠ pid)
    (hnd : (m2.map (fun kv => kv.1)).Nodup)
    (hv : dlookup m2 k = some v) :
    dlookup (dinsert (dinsert m k a) k b) k = some b ∧
    dlookup (dupdate m m2) k = some v ∧
    dlookup st'.nodes rid = some mr ∧ dlookup st'.nodes pid = some mp := by
  refine ⟨dlookup_dinsert_self _ _ _, dlookup_dupdate_of_nodup m2 m k v hnd hv, ?_⟩
  rw [aggRows_append] at hrun
  cases h1 : aggRows g fuel st rows with
  | none => rw [h1] at hrun; simp at hrun
  | some st1 =>
    rw [h1] at hrun
    simp only [Option.some_bind] at hrun
    simp only [aggRows] at hrun
    cases hstep : aggStep g fuel st1 r with
    | none => rw [hstep] at hrun; simp at hrun
    | some st2 =>
      rw [hstep] at hrun
      simp only [aggRows, Option.some.injEq] at hrun
      subst hrun
      obtain ⟨rmeta, pmeta, rid', pid', hrm, hpm, hri, hpi, hshape⟩ :=
        aggStep_eq_some g fuel st1 r st2 hstep
      rw [hmr] at hrm
      rw [hmp] at hpm
      have hrme : rmeta = mr := (Option.some.inj hrm).symm
      have hpme : pmeta = mp := (Option.some.inj hpm).symm
      subst hrme
      subst hpme
      rw [hrid] at hri
      rw [hpid] at hpi
      have hride : rid' = rid := (Option.some.inj hri).symm
      have hpide : pid' = pid := (Option.some.inj hpi).symm
      subst hride
      subst hpide
      rw [hshape]
      simp only []
      constructor
      · rw [dlookup_dinsert_ne _ _ _ _ hne, dlookup_dinsert_self]
      · rw [dlookup_dinsert_self]

/-- C9 witness: later writes win at a concrete two-row input. -/
theorem C9_node_last_write_wins_witness :
    dlookup stTwo.nodes "R2" = some mR2 ∧ dlookup stTwo.nodes "P2" = some mP2 := by
  have h := C9_node_last_write_wins storeEntities 1 ⟨[], [], compBR⟩ [rowA] rowB stTwo
    mR2 mP2 "R2" "P2" [] [("k", mR2)] "k" mR2 mR2 mR2
    (by rfl) (by rfl) (by rfl) (by rfl) (by rfl) (by decide) (by decide)
    (by rfl)
  exact ⟨h.2.2.1, h.2.2.2⟩

/-! C2: the "unknown" default sets of the two metadata resolvers. -/

theorem fillOpt_eq (o : Option String) : fillOpt o = some (o.getD "unknown") := by
  cases o <;> rfl

theorem setCC_entity_type (m : Metadata)
    (v : Option ((String ⊕ List String) ⊕ List Metadata)) :
    (m.setCC v).entity_type = m.entity_type := by
  cases m
  rfl

theorem entity_metadata_dict_entity_type (g : TripleStore) (uri : String) :
    (entity_metadata_dict g uri).entity_type =
      some (((rawEntityResult g uri).entity_type).getD "unknown") := by
  cases hm : rawEntityResult g uri with
  | mk i u ui n cl dn cm et cc =>
    simp [entity_metadata_dict, attr_fill, fillAttr, fillOpt_eq, Metadata.entity_type, hm]

theorem entity_metadata_dict_other_fields (g : TripleStore) (uri : String) :
    (entity_metadata_dict g uri).identifier = (rawEntityResult g uri).identifier ∧
    (entity_metadata_dict g uri).uri_reactome_id = (rawEntityResult g uri).uri_reactome_id ∧
    (entity_metadata_dict g uri).display_name = (rawEntityResult g uri).display_name ∧
    (entity_metadata_dict g uri).commentVal = (rawEntityResult g uri).commentVal ∧
    (entity_metadata_dict g uri).complex_components =
      (rawEntityResult g uri).complex_components := by
  cases hm : rawEntityResult g uri with
  | mk i u ui n cl dn cm et cc =>
    refine ⟨?_, ?_, ?_, ?_, ?_⟩ <;>
      simp [entity_metadata_dict, attr_fill, fillAttr, Metadata.identifier,
        Metadata.uri_reactome_id, Metadata.display_name, Metadata.commentVal,
        Metadata.complex_components, hm]

/-- Every resolved entity dictionary carries the `entity_type` key, with the
"unknown" default substituted when the query result had no binding. -/
theorem _get_entity_metadata_entity_type (g : TripleStore) (fuel : Nat) (uri : String)
    (m : Metadata) (h : _get_entity_metadata g fuel uri = some m) :
    m.entity_type = some (((rawEntityResult g uri).entity_type).getD "unknown") := by
  cases fuel with
  | zero => simp [_get_entity_metadata] at h
  | succ n =>
    have hdict := entity_metadata_dict_entity_type g uri
    simp only [_get_entity_metadata] at h
    by_cases hc : (entity_metadata_dict g uri).entity_type = some "Complex"
    · rw [if_pos hc] at h
      split at h
      · rcases Option.map_eq_some'.mp h with ⟨c, _, hc2⟩
        rw [← hc2, setCC_entity_type]
        exact hdict
      · rcases Option.map_eq_some'.mp h with ⟨cs, _, hc2⟩
        rw [← hc2, setCC_entity_type]
        exact hdict
      · rw [← Option.some.inj h, setCC_entity_type]
        exact hdict
    · rw [if_neg hc] at h
      simp only [Option.some.injEq] at h
      rw [← h]
      exact hdict

/-- The pathway-metadata resolver fills its four-key default set. -/
theorem _get_pathway_metadata_defaults (g : TripleStore) (uri : String) :
    (_get_pathway_metadata g uri).display_name =
      some (((rawEntityResult g uri).display_name).getD "unknown") ∧
    (_get_pathway_metadata g uri).identifier =
      some (((rawEntityResult g uri).identifier).getD "unknown") ∧
    (_get_pathway_metadata g uri).uri_reactome_id =
      some (((rawEntityResult g uri).uri_reactome_id).getD "unknown") ∧
    (_get_pathway_metadata g uri).commentVal =
      some (((rawEntityResult g uri).commentVal).getD "unknown") ∧
    (_get_pathway_metadata g uri).entity_type = (rawEntityResult g uri).entity_type := by
  cases hm : rawEntityResult g uri with
  | mk i u ui n cl dn cm et cc =>
    refine ⟨?_, ?_, ?_, ?_, ?_⟩ <;>
      simp [_get_pathway_metadata, attr_fill, fillAttr, fillOpt_eq, Metadata.display_name,
        Metadata.identifier, Metadata.uri_reactome_id, Metadata.commentVal,
        Metadata.entity_type, hm]

/-- A protein entity with a comment but no displayName triple. -/
def storeNoDisplay : TripleStore :=
  ⟨[("http://e#E", "http://www.biopax.org/release/biopax-level3.owl#Protein")],
   [], [("http://e#E", "c")], [], [], [], [], [], [], [], [], []⟩

/-- C2 counterexample: the entity resolver returns a dictionary whose
`display_name` key is absent (not the "unknown" default) when the query had
no displayName binding. -/
theorem C2_counterexample :
    ((_get_entity_metadata storeNoDisplay 1 "http://e#E").map Metadata.display_name) =
      some none := by
  rfl

/-- C2 (amended): the entity resolver's `attr_empty` set is only
`entity_type` — that key is always present, defaulting to "unknown"; the
four-key default set (display_name, identifier, uri_reactome_id, comment)
is guaranteed by `_get_pathway_metadata`, not by the entity resolver. -/
theorem C2_required_defaults (g : TripleStore) (fuel : Nat) (uri : String) (m : Metadata)
    (h : _get_entity_metadata g fuel uri = some m) :
    m.entity_type = some (((rawEntityResult g uri).entity_type).getD "unknown") ∧
    (_get_pathway_metadata g uri).display_name =
      some (((rawEntityResult g uri).display_name).getD "unknown") ∧
    (_get_pathway_metadata g uri).identifier =
      some (((rawEntityResult g uri).identifier).getD "unknown") ∧
    (_get_pathway_metadata g uri).uri_reactome_id =
      some (((rawEntityResult g uri).uri_reactome_id).getD "unknown") ∧
    (_get_pathway_metadata g uri).commentVal =
      some (((rawEntityResult g uri).commentVal).getD "unknown") := by
  obtain ⟨h1, h2, h3, h4, _⟩ := _get_pathway_metadata_defaults g uri
  exact ⟨_get_entity_metadata_entity_type g fuel uri m h, h1, h2, h3, h4⟩

/-- C2 witness at the no-displayName store. -/
theorem C2_required_defaults_witness :
    ((_get_entity_metadata storeNoDisplay 1 "http://e#E").getD
        (Metadata.mk none none none none none none none none none)).entity_type =
      some "Protein" ∧
    (_get_pathway_metadata storeNoDisplay "http://e#E").display_name = some "unknown" := by
  have h := C2_required_defaults storeNoDisplay 1 "http://e#E"
    ((_get_entity_metadata storeNoDisplay 1 "http://e#E").getD
      (Metadata.mk none none none none none none none none none)) (by rfl)
  exact ⟨h.1.trans (by rfl), h.2.1.trans (by rfl)⟩

/-! C7: cyclic complex composition. -/

/-- When two entities are Complexes each naming the other as its lone
component, no recursion depth completes the resolution of either. -/
theorem cycle_resolution_none (g : TripleStore) (A B : String)
    (hA1 : (entity_metadata_dict g A).entity_type = some "Complex")
    (hA2 : (entity_metadata_dict g A).complex_components = some (Sum.inl (Sum.inl B)))
    (hB1 : (entity_metadata_dict g B).entity_type = some "Complex")
    (hB2 : (entity_metadata_dict g B).complex_components = some (Sum.inl (Sum.inl A))) :
    ∀ n, _get_entity_metadata g n A = none ∧ _get_entity_metadata g n B = none := by
  intro n
  induction n with
  | zero => exact ⟨rfl, rfl⟩
  | succ k ih =>
    constructor
    · simp only [_get_entity_metadata]
      rw [if_pos hA1, hA2]
      show Option.map (fun c => (entity_metadata_dict g A).setCC (some (Sum.inr [c])))
          (_get_entity_metadata g k B) = none
      rw [ih.2]
      rfl
    · simp only [_get_entity_metadata]
      rw [if_pos hB1, hB2]
      show Option.map (fun c => (entity_metadata_dict g B).setCC (some (Sum.inr [c])))
          (_get_entity_metadata g k A) = none
      rw [ih.1]
      rfl

/-- Two Complex entities each containing the other. -/
def storeCycle : TripleStore :=
  ⟨[("http://e#A", "http://www.biopax.org/release/biopax-level3.owl#Complex"),
    ("http://e#B", "http://www.biopax.org/release/biopax-level3.owl#Complex")],
   [],
   [("http://e#A", "ca"), ("http://e#B", "cb")],
   [], [], [],
   [("http://e#A", "http://e#B"), ("http://e#B", "http://e#A")],
   [], [], [], [], []⟩

/-- C7 counterexample: the cyclic entity is never resolved, at any recursion
depth — the source loops rather than raising any error. -/
theorem C7_counterexample : ¬ resolvesEntity storeCycle "http://e#A" := by
  intro hres
  obtain ⟨n, hn⟩ := hres
  rw [(cycle_resolution_none storeCycle "http://e#A" "http://e#B"
    (by rfl) (by rfl) (by rfl) (by rfl) n).1] at hn
  simp at hn

/-- C7 (amended): on cyclic complex composition (A contains B, B contains A)
the source's recursive entity resolution does not terminate — no recursion
depth completes — and no CyclicCompositionError guard exists in the source
(the spec marks that guard reimplementation-required). -/
theorem C7_cyclic_composition (g : TripleStore) (A B : String)
    (hA1 : (entity_metadata_dict g A).entity_type = some "Complex")
    (hA2 : (entity_metadata_dict g A).complex_components = some (Sum.inl (Sum.inl B)))
    (hB1 : (entity_metadata_dict g B).entity_type = some "Complex")
    (hB2 : (entity_metadata_dict g B).complex_components = some (Sum.inl (Sum.inl A))) :
    ∀ n, _get_entity_metadata g n A = none :=
  fun n => (cycle_resolution_none g A B hA1 hA2 hB1 hB2 n).1

/-- C7 witness at the concrete cyclic store. -/
theorem C7_cyclic_composition_witness :
    _get_entity_metadata storeCycle 5 "http://e#A" = none :=
  C7_cyclic_composition storeCycle "http://e#A" "http://e#B"
    (by rfl) (by rfl) (by rfl) (by rfl) 5

/-- C8: for a Complex entity the resolver replaces the complex-components
key by a list — absent becomes the empty list, a lone URI a one-element
list, a multi-valued field is resolved element by element in source order
with the resolved sub-trees stored at the same positions — and repeated
resolution of the same reference at the same depth yields identical
results. -/
theorem C8_complex_components (g : TripleStore) (fuel : Nat) (uri : String)
    (hc : (entity_metadata_dict g uri).entity_type = some "Complex") :
    ((entity_metadata_dict g uri).complex_components = none →
        _get_entity_metadata g (fuel + 1) uri =
          some ((entity_metadata_dict g uri).setCC (some (Sum.inr [])))) ∧
    (∀ s c, (entity_metadata_dict g uri).complex_components = some (Sum.inl (Sum.inl s)) →
        _get_entity_metadata g fuel s = some c →
        _get_entity_metadata g (fuel + 1) uri =
          some ((entity_metadata_dict g uri).setCC (some (Sum.inr [c])))) ∧
    (∀ l cs, (entity_metadata_dict g uri).complex_components = some (Sum.inl (Sum.inr l)) →
        mapOption (fun s => _get_entity_metadata g fuel s) l = some cs →
        _get_entity_metadata g (fuel + 1) uri =
          some ((entity_metadata_dict g uri).setCC (some (Sum.inr cs))) ∧
        cs.length = l.length ∧
        ∀ i (hi : i < l.length) (hj : i < cs.length),
          _get_entity_metadata g fuel (l.get ⟨i, hi⟩) = some (cs.get ⟨i, hj⟩)) ∧
    (∀ m1 m2 : Metadata, _get_entity_metadata g fuel uri = some m1 →
        _get_entity_metadata g fuel uri = some m2 → m1 = m2) := by
  refine ⟨?_, ?_, ?_, ?_⟩
  · intro hcc
    simp only [_get_entity_metadata]
    rw [if_pos hc, hcc]
  · intro s c hcc hres
    simp only [_get_entity_metadata]
    rw [if_pos hc, hcc]
    show Option.map (fun c => (entity_metadata_dict g uri).setCC (some (Sum.inr [c])))
        (_get_entity_metadata g fuel s) =
      some ((entity_metadata_dict g uri).setCC (some (Sum.inr [c])))
    rw [hres]
    rfl
  · intro l cs hcc hres
    refine ⟨?_, (mapOption_length_get (fun s => _get_entity_metadata g fuel s) l cs hres).1,
      (mapOption_length_get (fun s => _get_entity_metadata g fuel s) l cs hres).2⟩
    simp only [_get_entity_metadata]
    rw [if_pos hc, hcc]
    show Option.map (fun cs => (entity_metadata_dict g uri).setCC (some (Sum.inr cs)))
        (mapOption (fun s => _get_entity_metadata g fuel s) l) =
      some ((entity_metadata_dict g uri).setCC (some (Sum.inr cs)))
    rw [hres]
    rfl
  · intro m1 m2 h1 h2
    rw [h1] at h2
    exact Option.some.inj h2

/-- A Complex with two Protein components A and B, in that source order. -/
def storeComplex : TripleStore :=
  ⟨[("http://e#C", "http://www.biopax.org/release/biopax-level3.owl#Complex"),
    ("http://e#A", "http://www.biopax.org/release/biopax-level3.owl#Protein"),
    ("http://e#B", "http://www.biopax.org/release/biopax-level3.owl#Protein")],
   [],
   [("http://e#C", "cc"), ("http://e#A", "ca"), ("http://e#B", "cb")],
   [], [], [],
   [("http://e#C", "http://e#A"), ("http://e#C", "http://e#B")],
   [], [], [], [], []⟩

/-- The resolved component list of the test Complex. -/
def csAB : List Metadata :=
  (mapOption (fun s => _get_entity_metadata storeComplex 1 s)
    ["http://e#A", "http://e#B"]).getD []

/-- C8 witness at the concrete two-component Complex. -/
theorem C8_complex_components_witness :
    _get_entity_metadata storeComplex 2 "http://e#C" =
      some ((entity_metadata_dict storeComplex "http://e#C").setCC (some (Sum.inr csAB))) ∧
    csAB.length = 2 := by
  have h := (C8_complex_components storeComplex 1 "http://e#C" (by rfl)).2.2.1
    ["http://e#A", "http://e#B"] csAB (by rfl) (by rfl)
  exact ⟨h.1, h.2.1.trans (by rfl)⟩

/-! The collector loop, unfolded over explicit component lists. -/

theorem collectRows_cons (g : TripleStore) (fuel : Nat)
    (st : List (String × Metadata) × List (String × Interaction))
    (c : String × Component) (cs : List (String × Component)) :
    collectRows g fuel st (c :: cs) =
      (collectStep g fuel st c).bind (fun st1 => collectRows g fuel st1 cs) := by
  cases h : collectStep g fuel st c <;> simp [collectRows, h]

theorem collectRows_singleton (g : TripleStore) (fuel : Nat)
    (st : List (String × Metadata) × List (String × Interaction))
    (c : String × Component) :
    collectRows g fuel st [c] = collectStep g fuel st c := by
  rw [collectRows_cons]
  cases h : collectStep g fuel st c <;> simp [collectRows]

/-- C5 (amended): a nested sub-pathway component Q contributes exactly one
node-map entry, keyed by Q's `uri_reactome_id` (the full URI, not the
fragment identifier), holding Q's resolved pathway metadata — whose
entity_type is Pathway whenever the source types Q as Pathway — and none of
Q's internal reaction participants appear in the returned nodes or
interactions. -/
theorem C5_nested_subpathway (g : TripleStore) (fuel : Nat) (p q u : String) (k : Component)
    (hc : pathway_components g p = [(q, k)])
    (hk : k.component_type = "Pathway")
    (hu : (_get_pathway_metadata g q).uri_reactome_id = some u) :
    _get_pathway_components g fuel p = some ([(u, _get_pathway_metadata g q)], []) ∧
    ((rawEntityResult g q).entity_type = some "Pathway" →
      (_get_pathway_metadata g q).entity_type = some "Pathway") := by
  constructor
  · have hne : ¬(k.component_type = "BiochemicalReaction") := by
      rw [hk]
      decide
    have hstep : collectStep g fuel ([], []) (q, k) =
        some ([(u, _get_pathway_metadata g q)], []) := by
      unfold collectStep
      rw [if_neg hne, if_pos hk, hu]
      rfl
    unfold _get_pathway_components
    rw [hc, collectRows_singleton, hstep]
    rfl
  · intro hp
    rw [(_get_pathway_metadata_defaults g q).2.2.2.2, hp]

/-- A pathway whose only direct component is a nested sub-pathway Q. -/
def storeNested : TripleStore :=
  ⟨[("http://q#Q", "http://www.biopax.org/release/biopax-level3.owl#Pathway")],
   [("http://q#Q", "Q pathway")],
   [("http://q#Q", "cq")],
   [], [], [], [],
   [("http://p#P", "http://q#Q")],
   [], [], [], []⟩

/-- The component record of the nested sub-pathway Q. -/
def compPW : Component := ⟨"Pathway", some "Q pathway", some "cq", none⟩

/-- C5 counterexample: the node map keys the nested sub-pathway by its full
URI (`uri_reactome_id`), not by its fragment identifier "Q". -/
theorem C5_counterexample :
    ((_get_pathway_components storeNested 1 "http://p#P").map
        (fun r => r.1.map (fun kv => kv.1))) = some ["http://q#Q"] ∧
    ((_get_pathway_components storeNested 1 "http://p#P").map
        (fun r => dlookup r.1 "Q")) = some none ∧
    (_get_pathway_metadata storeNested "http://q#Q").identifier = some "Q" := by
  exact ⟨by rfl, by rfl, by rfl⟩

/-- C5 witness at the concrete nested-pathway store. -/
theorem C5_nested_subpathway_witness :
    _get_pathway_components storeNested 1 "http://p#P" =
      some ([("http://q#Q", _get_pathway_metadata storeNested "http://q#Q")], []) ∧
    (_get_pathway_metadata storeNested "http://q#Q").entity_type = some "Pathway" := by
  have h := C5_nested_subpathway storeNested 1 "http://p#P" "http://q#Q" "http://q#Q" compPW
    (by rfl) (by rfl) (by rfl)
  exact ⟨h.1, h.2 (by rfl)⟩

/-- C6: for a pathway whose only component is a BiochemicalReaction with a
single participant row (reactant x, product y, control type absent), the
collector returns exactly the two resolved node entries keyed by their
identifiers and one interaction whose participants is the pair (ix, iy),
whose metadata carries the component's type BiochemicalReaction, and whose
interaction type is the literal "unknown". -/
theorem C6_single_reaction (g : TripleStore) (fuel : Nat) (p u x y ix iy : String)
    (k : Component) (mx my : Metadata)
    (hc : pathway_components g p = [(u, k)])
    (hk : k.component_type = "BiochemicalReaction")
    (hrows : participantRows g u = [⟨strAfter u "#", x, y, none⟩])
    (hmx : _get_entity_metadata g fuel x = some mx) (hix : mx.identifier = some ix)
    (hmy : _get_entity_metadata g fuel y = some my) (hiy : my.identifier = some iy)
    (hne : ix ≠ iy) :
    _get_pathway_components g fuel p =
      some ([(ix, mx), (iy, my)],
        [⟨{ k with interaction_type := some "unknown" }, some (Participants.pair ix iy)⟩]) ∧
    ({ k with interaction_type := some "unknown" } : Component).component_type =
      "BiochemicalReaction" := by
  have hstep1 : aggStep g fuel ⟨[], [], k⟩ ⟨strAfter u "#", x, y, none⟩ =
      some ⟨[(ix, mx), (iy, my)], [(strAfter u "#", some (Participants.pair ix iy))],
            { k with interaction_type := some "unknown" }⟩ := by
    simp [aggStep, hmx, hmy, hix, hiy, itOf, aggInts_nil, dinsert, hne]
  have hgrp : _get_reaction_participants g fuel u k =
      some ([(ix, mx), (iy, my)],
        [(strAfter u "#", ⟨{ k with interaction_type := some "unknown" },
          some (Participants.pair ix iy)⟩)],
        { k with interaction_type := some "unknown" }) := by
    unfold _get_reaction_participants
    rw [hrows]
    simp [aggRows, hstep1]
  have hstep2 : collectStep g fuel ([], []) (u, k) =
      some ([(ix, mx), (iy, my)],
        [(strAfter u "#", ⟨{ k with interaction_type := some "unknown" },
          some (Participants.pair ix iy)⟩)]) := by
    unfold collectStep
    rw [if_pos hk, hgrp]
    simp [dupdate, dinsert, hne]
  constructor
  · unfold _get_pathway_components
    rw [hc, collectRows_singleton, hstep2]
    rfl
  · simp [hk]

/-- The resolved metadata of R1 in the one-reaction store. -/
def mR1 : Metadata :=
  (_get_entity_metadata storeOneReaction 1 "http://e#R1").getD
    (Metadata.mk none none none none none none none none none)

/-- The resolved metadata of P1 in the one-reaction store. -/
def mP1 : Metadata :=
  (_get_entity_metadata storeOneReaction 1 "http://e#P1").getD
    (Metadata.mk none none none none none none none none none)

/-- C6 witness at the concrete one-reaction store. -/
theorem C6_single_reaction_witness :
    _get_pathway_components storeOneReaction 1 "http://p#P" =
      some ([("R1", mR1), ("P1", mP1)],
        [⟨⟨"BiochemicalReaction", none, none, some "unknown"⟩,
          some (Participants.pair "R1" "P1")⟩]) := by
  have h := C6_single_reaction storeOneReaction 1 "http://p#P" "http://rx#X"
    "http://e#R1" "http://e#P1" "R1" "P1" compBR mR1 mP1
    (by rfl) (by rfl) (by rfl) (by rfl) (by rfl) (by rfl) (by rfl) (by decide)
  exact h.1

/-- C3 (amended): when two reaction components of one pathway produce the
same interaction identifier, the collector's `interactions.update(…)` merge
replaces the earlier record wholesale by the later component's record — the
existing record's participants are not promoted or extended. -/
theorem C3_interaction_replacement (g : TripleStore) (fuel : Nat) (p u1 u2 id : String)
    (k1 k2 : Component)
    (n1 n2 : List (String × Metadata)) (i1 i2 : List (String × Interaction))
    (c1 c2 : Component) (v : Interaction)
    (hc : pathway_components g p = [(u1, k1), (u2, k2)])
    (h1 : k1.component_type = "BiochemicalReaction")
    (h2 : k2.component_type = "BiochemicalReaction")
    (hr1 : _get_reaction_participants g fuel u1 k1 = some (n1, i1, c1))
    (hr2 : _get_reaction_participants g fuel u2 k2 = some (n2, i2, c2))
    (hnd : (i2.map (fun kv => kv.1)).Nodup)
    (hv : dlookup i2 id = some v) :
    _get_pathway_components g fuel p =
      some (dupdate (dupdate [] n1) n2,
        (dupdate (dupdate [] i1) i2).map (fun kv => kv.2)) ∧
    dlookup (dupdate (dupdate [] i1) i2) id = some v := by
  constructor
  · have hstep1 : collectStep g fuel ([], []) (u1, k1) =
        some (dupdate [] n1, dupdate [] i1) := by
      unfold collectStep
      rw [if_pos h1, hr1]
    have hstep2 : collectStep g fuel (dupdate [] n1, dupdate [] i1) (u2, k2) =
        some (dupdate (dupdate [] n1) n2, dupdate (dupdate [] i1) i2) := by
      unfold collectStep
      rw [if_pos h2, hr2]
    unfold _get_pathway_components
    rw [hc, collectRows_cons, hstep1]
    simp only [Option.some_bind]
    rw [collectRows_singleton, hstep2]
  · exact dlookup_dupdate_of_nodup i2 (dupdate [] i1) id v hnd hv

/-- Two reaction components of one pathway whose URIs share the fragment
"X" after '#', so both produce the interaction identifier "X". -/
def storeCollide : TripleStore :=
  ⟨[("http://a#X", "http://www.biopax.org/release/biopax-level3.owl#BiochemicalReaction"),
    ("http://b#X", "http://www.biopax.org/release/biopax-level3.owl#BiochemicalReaction"),
    ("http://e#R1", "http://www.biopax.org/release/biopax-level3.owl#Protein"),
    ("http://e#P1", "http://www.biopax.org/release/biopax-level3.owl#Protein"),
    ("http://e#R2", "http://www.biopax.org/release/biopax-level3.owl#Protein"),
    ("http://e#P2", "http://www.biopax.org/release/biopax-level3.owl#Protein")],
   [],
   [("http://e#R1", "c"), ("http://e#P1", "c"), ("http://e#R2", "c"), ("http://e#P2", "c")],
   [], [], [], [],
   [("http://p#P", "http://a#X"), ("http://p#P", "http://b#X")],
   [("http://a#X", "http://e#R1"), ("http://b#X", "http://e#R2")],
   [("http://a#X", "http://e#P1"), ("http://b#X", "http://e#P2")],
   [], []⟩

/-- C3 counterexample: with two components both yielding interaction id "X",
the collector's merged interaction list holds only the later component's
record, still in pair form (R2, P2) — not the promoted set form containing
the earlier pair (R1, P1). -/
theorem C3_counterexample :
    ((_get_pathway_components storeCollide 1 "http://p#P").map
        (fun r => r.2.map (fun i => i.participants))) =
      some [some (Participants.pair "R2" "P2")] ∧
    some [some (Participants.pair "R2" "P2")] ≠
      some [some (Participants.sets {"R1", "R2"} {"P1", "P2"})] := by
  exact ⟨by rfl, by decide⟩

/-- The aggregator output for the first colliding component. -/
def outCollide1 : List (String × Metadata) × List (String × Interaction) × Component :=
  (_get_reaction_participants storeCollide 1 "http://a#X" compBR).getD ⟨[], [], compBR⟩

/-- The aggregator output for the second colliding component. -/
def outCollide2 : List (String × Metadata) × List (String × Interaction) × Component :=
  (_get_reaction_participants storeCollide 1 "http://b#X" compBR).getD ⟨[], [], compBR⟩

/-- The second component's interaction record at identifier "X". -/
def intCollideB : Interaction :=
  (dlookup outCollide2.2.1 "X").getD ⟨compBR, none⟩

/-- C3 witness at the concrete colliding store. -/
theorem C3_interaction_replacement_witness :
    dlookup (dupdate (dupdate [] outCollide1.2.1) outCollide2.2.1) "X" = some intCollideB := by
  have h := C3_interaction_replacement storeCollide 1 "http://p#P" "http://a#X" "http://b#X"
    "X" compBR compBR outCollide1.1 outCollide2.1 outCollide1.2.1 outCollide2.2.1
    outCollide1.2.2 outCollide2.2.2 intCollideB
    (by rfl) (by rfl) (by rfl) (by rfl) (by rfl) (by decide) (by rfl)
  exact h.2

end PathMe
